import Mathlib

set_option maxRecDepth 40000

/-!
Verification of the intrusive AVL tree in `avltree.h`/`avltree.c`.

The C code manipulates caller-owned records through embedded
`avl_node_t` structures holding `parent`, `left`, `right` pointers and a
cached `height`.  We embed the code shallowly: node identities are natural
numbers, a null pointer is `none`, and the mutable memory is a total
function `Heap : Nat → AvlNode`.  Every C statement becomes an explicit
heap update, performed in exactly the order the C source performs it.

The user-supplied three-way comparator (`avl_tree_cmp_fp`, required by the
spec to be a strict total order) is instantiated with the canonical
comparator on integer keys; the key lives in the caller record, outside
`avl_node_t`, so `memcpy`-swapping two `avl_node_t` structures does not
exchange keys.

C `assert` statements are modelled as no-ops (the `NDEBUG` semantics, in
which `assert` compiles away); places where the C would dereference a null
pointer return the state unchanged and are guarded by hypotheses in the
theorems.  All recursions over the pointer structure take explicit fuel,
mirroring the C recursion; theorems either quantify over sufficient fuel
or use a fixed large fuel on concrete inputs.
-/

/-- An embedded `avl_node_t` together with the key of the caller record it
lives in.  `parent`, `left`, `right` model the three pointers (`none` is
`NULL`), `height` the cached subtree height (a C `int`). -/
structure AvlNode where
  parent : Option Nat
  left   : Option Nat
  right  : Option Nat
  height : Int
  key    : Int
deriving DecidableEq, Repr

/-- The mutable memory: node id to node contents. -/
def Heap : Type := Nat → AvlNode

/-- `avl_tree_t`: the root pointer.  The comparator slot of the C struct is
fixed to integer comparison (see the file comment). -/
structure AvlTree where
  root : Option Nat
deriving DecidableEq, Repr

/-- Update one node of the heap. -/
def writeNode (h : Heap) (i : Nat) (f : AvlNode → AvlNode) : Heap :=
  fun j => if j = i then f (h j) else h j

/-- A slot, i.e. an `avl_node_t **` as passed to the rotation routines:
either the tree's root field or the left/right child field of a node. -/
inductive Slot where
  | sroot  : Slot
  | sleft  : Nat → Slot
  | sright : Nat → Slot
deriving DecidableEq, Repr

/-- Read through an `avl_node_t **`. -/
def readSlot (t : AvlTree) (h : Heap) : Slot → Option Nat
  | .sroot => t.root
  | .sleft i => (h i).left
  | .sright i => (h i).right

/-- Write through an `avl_node_t **`. -/
def writeSlot (t : AvlTree) (h : Heap) (s : Slot) (v : Option Nat) :
    AvlTree × Heap :=
  match s with
  | .sroot => ({ root := v }, h)
  | .sleft i => (t, writeNode h i fun n => { n with left := v })
  | .sright i => (t, writeNode h i fun n => { n with right := v })

/-- The user comparator, instantiated with integer comparison: `0` equal,
`1` when `a > b`, `-1` when `a < b` (the contract of `avl_tree_cmp_fp`). -/
def avl_cmp (a b : Int) : Int :=
  if a < b then -1 else if b < a then 1 else 0

/-- `avl_get_balance`: height of left subtree minus height of right
subtree, a `NULL` child counting as height 0. -/
def avl_get_balance (h : Heap) (node : Nat) : Int :=
  (match (h node).left with
   | some l => (h l).height
   | none => 0) -
  (match (h node).right with
   | some r => (h r).height
   | none => 0)

/-- `avl_is_balanced`: `FALSE` iff the balance factor is outside
`[-1, 1]`. -/
def avl_is_balanced (h : Heap) (node : Nat) : Bool :=
  if avl_get_balance h node < -1 || avl_get_balance h node > 1 then false
  else true

/-- `avl_set_height`: recursively recompute the cached heights of the
subtree below `node`, exactly in the source's order (left subtree first,
then the `>=` comparison against the provisional height). -/
def avl_set_height (fuel : Nat) (h : Heap) (node : Nat) : Heap :=
  match fuel with
  | 0 => h
  | f + 1 =>
    let h1 := writeNode h node fun n => { n with height := 1 }
    let h2 :=
      match (h1 node).left with
      | none => h1
      | some l =>
        let hl := avl_set_height f h1 l
        writeNode hl node fun n => { n with height := (hl l).height + 1 }
    match (h2 node).right with
    | none => h2
    | some r =>
      let hr := avl_set_height f h2 r
      if (hr node).height ≤ (hr r).height then
        writeNode hr node fun n => { n with height := (hr r).height + 1 }
      else hr

/-- `avl_rotate_rr`.  `slot` is the `avl_node_t **` argument.  The
`assert`s are elided; the C null dereference when `node->right == NULL`
is modelled by returning the state unchanged. -/
def avl_rotate_rr (t : AvlTree) (h : Heap) (slot : Slot) (node : Nat) :
    AvlTree × Heap :=
  match (h node).right with
  | none => (t, h)
  | some r =>
    let rl := (h r).left
    let h1 := writeNode h node fun n => { n with right := rl }
    let h2 :=
      match rl with
      | some x => writeNode h1 x fun n => { n with parent := some node }
      | none => h1
    let h3 := writeNode h2 r fun n => { n with parent := (h2 node).parent }
    let h4 := writeNode h3 r fun n => { n with left := some node }
    let h5 := writeNode h4 node fun n => { n with parent := some r }
    writeSlot t h5 slot (some r)

/-- `avl_rotate_ll`, the mirror image of `avl_rotate_rr`. -/
def avl_rotate_ll (t : AvlTree) (h : Heap) (slot : Slot) (node : Nat) :
    AvlTree × Heap :=
  match (h node).left with
  | none => (t, h)
  | some l =>
    let lr := (h l).right
    let h1 := writeNode h node fun n => { n with left := lr }
    let h2 :=
      match lr with
      | some x => writeNode h1 x fun n => { n with parent := some node }
      | none => h1
    let h3 := writeNode h2 l fun n => { n with parent := (h2 node).parent }
    let h4 := writeNode h3 l fun n => { n with right := some node }
    let h5 := writeNode h4 node fun n => { n with parent := some l }
    writeSlot t h5 slot (some l)

/-- `avl_rotate_lr`: an RR rotation on the left subtree followed by an LL
rotation on `node`. -/
def avl_rotate_lr (t : AvlTree) (h : Heap) (slot : Slot) (node : Nat) :
    AvlTree × Heap :=
  match (h node).left with
  | none => (t, h)
  | some l =>
    let s1 := avl_rotate_rr t h (.sleft node) l
    avl_rotate_ll s1.1 s1.2 slot node

/-- `avl_rotate_rl`: an LL rotation on the right subtree followed by an RR
rotation on `node`. -/
def avl_rotate_rl (t : AvlTree) (h : Heap) (slot : Slot) (node : Nat) :
    AvlTree × Heap :=
  match (h node).right with
  | none => (t, h)
  | some r =>
    let s1 := avl_rotate_ll t h (.sright node) r
    avl_rotate_rr s1.1 s1.2 slot node

/-- `avl_do_balancing`: select the slot holding `node`, apply the rotation
dictated by the balance factors, recompute all heights from the tree root,
and return `TRUE`, except in the tied sub-case (heavy child with balance
exactly 0, which only arises during deletion) where `FALSE` is returned. -/
def avl_do_balancing (fuel : Nat) (t : AvlTree) (h : Heap) (node : Nat) :
    Bool × AvlTree × Heap :=
  let slot : Slot :=
    match (h node).parent with
    | some p => if (h p).right = some node then .sright p else .sleft p
    | none => .sroot
  let res : Bool × AvlTree × Heap :=
    if avl_get_balance h node > 0 then
      match (h node).left with
      | none => (true, t, h)
      | some l =>
        if avl_get_balance h l > 0 then
          let s := avl_rotate_ll t h slot node
          (true, s.1, s.2)
        else if avl_get_balance h l < 0 then
          let s := avl_rotate_lr t h slot node
          (true, s.1, s.2)
        else
          let s := avl_rotate_ll t h slot node
          (false, s.1, s.2)
    else if avl_get_balance h node < 0 then
      match (h node).right with
      | none => (true, t, h)
      | some r =>
        if avl_get_balance h r < 0 then
          let s := avl_rotate_rr t h slot node
          (true, s.1, s.2)
        else if avl_get_balance h r > 0 then
          let s := avl_rotate_rl t h slot node
          (true, s.1, s.2)
        else
          let s := avl_rotate_rr t h slot node
          (false, s.1, s.2)
    else (true, t, h)
  match res.2.1.root with
  | some rt => (res.1, res.2.1, avl_set_height fuel res.2.2 rt)
  | none => res

/-- `avl_get_max_node`: follow `right` pointers to the maximum node. -/
def avl_get_max_node (fuel : Nat) (h : Heap) (node : Option Nat) :
    Option Nat :=
  match fuel, node with
  | _, none => none
  | 0, some _ => none
  | f + 1, some i =>
    match (h i).right with
    | none => some i
    | some r => avl_get_max_node f h (some r)

/-- `avl_get_min_node`: follow `left` pointers to the minimum node. -/
def avl_get_min_node (fuel : Nat) (h : Heap) (node : Option Nat) :
    Option Nat :=
  match fuel, node with
  | _, none => none
  | 0, some _ => none
  | f + 1, some i =>
    match (h i).left with
    | none => some i
    | some l => avl_get_min_node f h (some l)

/-- `__avl_find`: comparator-driven binary descent; `node` is the probe
node carrying the key searched for. -/
def avlFindAux (fuel : Nat) (h : Heap) (root : Option Nat) (node : Nat) :
    Option Nat :=
  match fuel, root with
  | _, none => none
  | 0, some _ => none
  | f + 1, some rt =>
    let res := avl_cmp (h node).key (h rt).key
    if res > 0 then avlFindAux f h (h rt).right node
    else if res < 0 then avlFindAux f h (h rt).left node
    else some rt

/-- `avl_find`. -/
def avl_find (fuel : Nat) (t : AvlTree) (h : Heap) (node : Nat) :
    Option Nat :=
  avlFindAux fuel h t.root node

/-- `__avl_add`: descend to the insertion point.  Faithful to the source,
including the `return root->right = __avl_add(...)` statement in the
greater-than branch, whose value is the result of the recursive call (not
`root`). -/
def avlAddAux (fuel : Nat) (h : Heap) (root : Option Nat)
    (root_parent : Option Nat) (node : Nat) : Heap × Nat :=
  match fuel, root with
  | 0, _ => (h, node)
  | _ + 1, none =>
    (writeNode h node fun n => { n with parent := root_parent }, node)
  | f + 1, some rt =>
    let res := avl_cmp (h node).key (h rt).key
    if res < 0 then
      let s := avlAddAux f h (h rt).left (some rt) node
      (writeNode s.1 rt fun n => { n with left := some s.2 }, rt)
    else if res > 0 then
      let s := avlAddAux f h (h rt).right (some rt) node
      (writeNode s.1 rt fun n => { n with right := some s.2 }, s.2)
    else (h, rt)

/-- The rebalancing walk of `avl_add`: from `node` up through parents, at
the first unbalanced node apply `avl_do_balancing` and stop. -/
def avlAddWalk (fuel : Nat) (t : AvlTree) (h : Heap) (node : Option Nat) :
    AvlTree × Heap :=
  match fuel, node with
  | _, none => (t, h)
  | 0, some _ => (t, h)
  | f + 1, some i =>
    if avl_is_balanced h i then avlAddWalk f t h (h i).parent
    else
      let s := avl_do_balancing (f + 1) t h i
      (s.2.1, s.2.2)

/-- `avl_add`: insert, recompute all heights from the (new) root, then the
upward rebalancing walk starting at the inserted node. -/
def avl_add (fuel : Nat) (t : AvlTree) (h : Heap) (node : Nat) :
    AvlTree × Heap :=
  let s := avlAddAux fuel h t.root none node
  let t1 : AvlTree := { root := some s.2 }
  let h2 := avl_set_height fuel s.1 s.2
  avlAddWalk fuel t1 h2 node

/-- `avl_swap_nodes`: exchange the structural roles of `node1` and
`node2`.  The `memcpy`s swap the four linkage fields (`parent`, `left`,
`right`, `height`) but not the key, which lives outside `avl_node_t`;
afterwards the neighbours' back-references are patched, with special cases
when the two nodes were directly linked.  The `assert(FALSE)` arms fall
through without effect (`NDEBUG` semantics). -/
def avl_swap_nodes (node1 node2 : Nat) (t : AvlTree) (h : Heap) :
    AvlTree × Heap :=
  if node1 = node2 then (t, h)
  else
    let n1 := h node1
    let n2 := h node2
    let h0 := writeNode (writeNode h node1 fun n =>
      { n with parent := n2.parent, left := n2.left, right := n2.right,
               height := n2.height }) node2 fun n =>
      { n with parent := n1.parent, left := n1.left, right := n1.right,
               height := n1.height }
    -- handle node1
    let s1 : AvlTree × Heap :=
      match (h0 node1).parent with
      | some p =>
        if p = node1 then
          (t, writeNode h0 node1 fun n => { n with parent := some node2 })
        else if (h0 p).left = some node2 then
          (t, writeNode h0 p fun n => { n with left := some node1 })
        else if (h0 p).right = some node2 then
          (t, writeNode h0 p fun n => { n with right := some node1 })
        else (t, h0)
      | none => ({ root := some node1 }, h0)
    let t1 := s1.1
    let ha := s1.2
    let hb :=
      match (ha node1).left with
      | some l =>
        let h' := if l = node1 then
            writeNode ha node1 fun n => { n with left := some node2 }
          else ha
        match (h' node1).left with
        | some l2 => writeNode h' l2 fun n => { n with parent := some node1 }
        | none => h'
      | none => ha
    let hc :=
      match (hb node1).right with
      | some r =>
        let h' := if r = node1 then
            writeNode hb node1 fun n => { n with right := some node2 }
          else hb
        match (h' node1).right with
        | some r2 => writeNode h' r2 fun n => { n with parent := some node1 }
        | none => h'
      | none => hb
    -- handle node2
    let s2 : AvlTree × Heap :=
      match (hc node2).parent with
      | some p =>
        if p = node2 then
          (t1, writeNode hc node2 fun n => { n with parent := some node1 })
        else if (hc p).left = some node1 then
          (t1, writeNode hc p fun n => { n with left := some node2 })
        else if (hc p).right = some node1 then
          (t1, writeNode hc p fun n => { n with right := some node2 })
        else (t1, hc)
      | none => ({ root := some node2 }, hc)
    let t2 := s2.1
    let hd := s2.2
    let he :=
      match (hd node2).left with
      | some l =>
        let h' := if l = node2 then
            writeNode hd node2 fun n => { n with left := some node1 }
          else hd
        match (h' node2).left with
        | some l2 => writeNode h' l2 fun n => { n with parent := some node2 }
        | none => h'
      | none => hd
    let hf :=
      match (he node2).right with
      | some r =>
        let h' := if r = node2 then
            writeNode he node2 fun n => { n with right := some node1 }
          else he
        match (h' node2).right with
        | some r2 => writeNode h' r2 fun n => { n with parent := some node2 }
        | none => h'
      | none => he
    (t2, hf)

/-- The rebalancing walk of `avl_del` (the `for` loop): at each unbalanced
node run `avl_do_balancing`; on `FALSE` break, on `TRUE` advance once
inside the body and once more in the loop increment. -/
def avlDelWalk (fuel : Nat) (t : AvlTree) (h : Heap) (node : Option Nat) :
    AvlTree × Heap :=
  match fuel, node with
  | _, none => (t, h)
  | 0, some _ => (t, h)
  | f + 1, some i =>
    if avl_is_balanced h i then avlDelWalk f t h (h i).parent
    else
      let s := avl_do_balancing (f + 1) t h i
      if s.1 then
        match (s.2.2 i).parent with
        | some j => avlDelWalk f s.2.1 s.2.2 ((s.2.2 j).parent)
        | none => (s.2.1, s.2.2)
      else (s.2.1, s.2.2)

/-- `avl_del`: two-children reduction by `avl_swap_nodes` with the maximum
of the left subtree, splice out, then (only when the spliced node had a
parent) recompute heights from the root and walk upward rebalancing. -/
def avl_del (fuel : Nat) (t : AvlTree) (h : Heap) (node : Nat) :
    AvlTree × Heap :=
  let s0 : AvlTree × Heap :=
    if (h node).left.isSome && (h node).right.isSome then
      match avl_get_max_node fuel h (h node).left with
      | some swap => avl_swap_nodes node swap t h
      | none => (t, h)
    else (t, h)
  let t1 := s0.1
  let h1 := s0.2
  let slot : Slot :=
    match (h1 node).parent with
    | some p => if (h1 p).left = some node then .sleft p else .sright p
    | none => .sroot
  let child : Option Nat :=
    match (h1 node).left with
    | some l => some l
    | none => (h1 node).right
  let s2 := writeSlot t1 h1 slot child
  let t2 := s2.1
  let h2 := s2.2
  let h3 :=
    match readSlot t2 h2 slot with
    | some c => writeNode h2 c fun n => { n with parent := (h2 node).parent }
    | none => h2
  match (h3 node).parent with
  | none => (t2, h3)
  | some p =>
    let h4 :=
      match t2.root with
      | some rt => avl_set_height fuel h3 rt
      | none => h3
    avlDelWalk fuel t2 h4 (some p)

/-- Ids of the nodes reachable from `root` by following `left`/`right`
(pre-order), bounded by fuel. -/
def subtreeIds (fuel : Nat) (h : Heap) (root : Option Nat) : List Nat :=
  match fuel, root with
  | _, none => []
  | 0, some _ => []
  | f + 1, some i =>
    i :: (subtreeIds f h (h i).left ++ subtreeIds f h (h i).right)

/-- In-order key sequence of the subtree below `root`, bounded by fuel. -/
def inorderKeys (fuel : Nat) (h : Heap) (root : Option Nat) : List Int :=
  match fuel, root with
  | _, none => []
  | 0, some _ => []
  | f + 1, some i =>
    inorderKeys f h (h i).left ++ (h i).key :: inorderKeys f h (h i).right

/-- A node with no meaningful linkage, as a Detached node enters `Add`. -/
def dNode (k : Int) : AvlNode :=
  { parent := none, left := none, right := none, height := 0, key := k }

/-- The actual (recomputed, not cached) height of the subtree below
`root`: 0 for an absent subtree, `1 + max` of the children otherwise. -/
def subtreeHeight (fuel : Nat) (h : Heap) (root : Option Nat) : Int :=
  match fuel, root with
  | _, none => 0
  | 0, some _ => 0
  | f + 1, some i =>
    1 + max (subtreeHeight f h (h i).left) (subtreeHeight f h (h i).right)

/-- The insertion descent of `__avl_add`, as a pure read-only function:
returns `some p` when the key's insertion point is an absent child of `p`
(`some none` for insertion into an empty tree), and `none` when a node of
equal key is found on the way (or fuel runs out). -/
def addDescent (fuel : Nat) (h : Heap) (root : Option Nat)
    (par : Option Nat) (k : Int) : Option (Option Nat) :=
  match fuel, root with
  | 0, _ => none
  | _ + 1, none => some par
  | f + 1, some rt =>
    if k < (h rt).key then addDescent f h (h rt).left (some rt) k
    else if (h rt).key < k then addDescent f h (h rt).right (some rt) k
    else none

/-- Fuel used by all concrete executions below; every concrete structure
here has fewer than 30 nodes. -/
def bigFuel : Nat := 30

/-- Run a sequence of `avl_add` calls on the given node ids. -/
def runAdds : AvlTree × Heap → List Nat → AvlTree × Heap
  | s, [] => s
  | s, i :: rest => runAdds (avl_add bigFuel s.1 s.2 i) rest

/-! ### Concrete states for the scenario claims -/

/-- Seven Detached nodes, id `i` carrying key `i` (Scenario B input). -/
def heapB : Heap := fun i => dNode i

/-- Scenario B execution: `Add` ids 1..7 (keys 1..7 ascending) into an
empty tree. -/
def stB : AvlTree × Heap := runAdds (⟨none⟩, heapB) [1, 2, 3, 4, 5, 6, 7]

/-- Scenario for the count invariant: `Add` keys 1 then 2. -/
def stCount : AvlTree × Heap := runAdds (⟨none⟩, heapB) [1, 2]

/-- Detached nodes for the balance-invariant counterexample sequence:
ids 1..5 carry keys 2, 1, 3, 2, 1. -/
def heapBal : Heap := fun i =>
  if i = 1 then dNode 2 else if i = 2 then dNode 1
  else if i = 3 then dNode 3 else if i = 4 then dNode 2
  else if i = 5 then dNode 1 else dNode 0

/-- Balance sequence, part 1: `Add` ids 1,2,3,4 (keys 2,1,3,2). -/
def stBal1 : AvlTree × Heap := runAdds (⟨none⟩, heapBal) [1, 2, 3, 4]

/-- Balance sequence, part 2: `Delete` id 3, a current member. -/
def stBal2 : AvlTree × Heap := avl_del bigFuel stBal1.1 stBal1.2 3

/-- Balance sequence, part 3: `Add` id 5 (key 1). -/
def stBal3 : AvlTree × Heap := avl_add bigFuel stBal2.1 stBal2.2 5

/-- Detached nodes for Scenario C: ids 1..7 carry keys
20, 10, 30, 5, 15, 25, 35. -/
def heapScC : Heap := fun i =>
  if i = 1 then dNode 20 else if i = 2 then dNode 10
  else if i = 3 then dNode 30 else if i = 4 then dNode 5
  else if i = 5 then dNode 15 else if i = 6 then dNode 25
  else if i = 7 then dNode 35 else dNode 0

/-- Scenario C build: `Add` the seven nodes in the listed order. -/
def stScC : AvlTree × Heap := runAdds (⟨none⟩, heapScC) [1, 2, 3, 4, 5, 6, 7]

/-- The well-formed balanced tree over keys 20,10,30,5,15,25,35 (root 20),
as Scenario C intends the build to produce. -/
def heapScCw : Heap := fun i =>
  if i = 1 then ⟨none, some 2, some 3, 3, 20⟩
  else if i = 2 then ⟨some 1, some 4, some 5, 2, 10⟩
  else if i = 3 then ⟨some 1, some 6, some 7, 2, 30⟩
  else if i = 4 then ⟨some 2, none, none, 1, 5⟩
  else if i = 5 then ⟨some 2, none, none, 1, 15⟩
  else if i = 6 then ⟨some 3, none, none, 1, 25⟩
  else if i = 7 then ⟨some 3, none, none, 1, 35⟩
  else dNode 0

/-- Deleting the two-child root (key 20) from the well-formed Scenario C
tree. -/
def stScCw : AvlTree × Heap := avl_del bigFuel ⟨some 1⟩ heapScCw 1

/-- A well-formed three-node tree (root id 2 key 2, left id 1 key 1,
right id 3 key 3) plus a Detached node id 4 whose key 3 duplicates a
member's key. -/
def heapDup : Heap := fun i =>
  if i = 1 then ⟨some 2, none, none, 1, 1⟩
  else if i = 2 then ⟨none, some 1, some 3, 2, 2⟩
  else if i = 3 then ⟨some 2, none, none, 1, 3⟩
  else if i = 4 then dNode 3 else dNode 0

/-- Duplicate insertion: `Add` the Detached node id 4 (key 3) into the
tree rooted at id 2. -/
def stDup : AvlTree × Heap := avl_add bigFuel ⟨some 2⟩ heapDup 4

/-- A well-formed two-node tree (root id 1 key 30, right child id 2 key
36) plus a Detached node id 3 with key 31. -/
def heapIns : Heap := fun i =>
  if i = 1 then ⟨none, none, some 2, 2, 30⟩
  else if i = 2 then ⟨some 1, none, none, 1, 36⟩
  else if i = 3 then dNode 31 else dNode 0

/-- Insertion of key 31 into the tree `{30, 36}`. -/
def stIns : AvlTree × Heap := avl_add bigFuel ⟨some 1⟩ heapIns 3

/-- A well-formed 5-node tree: root id 1 (key 4) with left id 2 (key 2,
children ids 4 and 5, keys 1 and 3) and right id 3 (key 5, a leaf).
Deleting id 3 makes the root unbalanced with a balance-0 (tied) left
child. -/
def heapTied : Heap := fun i =>
  if i = 1 then ⟨none, some 2, some 3, 3, 4⟩
  else if i = 2 then ⟨some 1, some 4, some 5, 2, 2⟩
  else if i = 3 then ⟨some 1, none, none, 1, 5⟩
  else if i = 4 then ⟨some 2, none, none, 1, 1⟩
  else if i = 5 then ⟨some 2, none, none, 1, 3⟩
  else dNode 0

/-- The state `avl_del bigFuel ⟨some 1⟩ heapTied 3` reaches just before
its rebalancing walk: the leaf id 3 spliced out of the root's right slot
and all heights recomputed. -/
def heapTiedMid : Heap :=
  avl_set_height bigFuel
    (writeNode heapTied 1 fun n => { n with right := none }) 1

/-- A state in which the node at the walk position (id 2) is unbalanced
with a tied (balance 0) left child, and its parent id 1 — the tree root —
is also unbalanced: id 1 (key 10, left id 2, right id 6), id 2 (key 5,
left id 3), id 3 (key 3, children ids 4, 5), leaves ids 4 (key 2),
5 (key 4), 6 (key 20).  All cached heights equal the actual heights. -/
def heapWalk : Heap := fun i =>
  if i = 1 then ⟨none, some 2, some 6, 4, 10⟩
  else if i = 2 then ⟨some 1, some 3, none, 3, 5⟩
  else if i = 3 then ⟨some 2, some 4, some 5, 2, 3⟩
  else if i = 4 then ⟨some 3, none, none, 1, 2⟩
  else if i = 5 then ⟨some 3, none, none, 1, 4⟩
  else if i = 6 then ⟨some 1, none, none, 1, 20⟩
  else dNode 0

/-- The deletion rebalancing walk started at id 2 in `heapWalk`. -/
def stWalk : AvlTree × Heap := avlDelWalk bigFuel ⟨some 1⟩ heapWalk (some 2)

/-- A three-node right spine for exercising rotations: id 1 (key 10, the
root) with right child id 2 (key 20), which has left child id 3
(key 15). -/
def heapRot : Heap := fun i =>
  if i = 1 then ⟨none, none, some 2, 3, 10⟩
  else if i = 2 then ⟨some 1, some 3, none, 2, 20⟩
  else if i = 3 then ⟨some 2, none, none, 1, 15⟩
  else dNode 0

/-! ### Additional specification-side definitions -/

/-- The node (if any) owning the child field a slot denotes. -/
def slotOwner : Slot → Option Nat
  | .sroot => none
  | .sleft i => some i
  | .sright i => some i

/-- Decidable BST ordering invariant for the subtree below `root`: every
key in a node's left subtree is smaller, every key in its right subtree
larger; `false` when the fuel does not cover the subtree. -/
def isBSTb (fuel : Nat) (h : Heap) (root : Option Nat) : Bool :=
  match fuel, root with
  | _, none => true
  | 0, some _ => false
  | f + 1, some i =>
    (subtreeIds f h (h i).left).all (fun j => (h j).key < (h i).key) &&
    (subtreeIds f h (h i).right).all (fun j => (h i).key < (h j).key) &&
    isBSTb f h (h i).left && isBSTb f h (h i).right

/-- `followsTo p h r j`: starting at node `r` and taking a `left` child
step for `true` and a `right` child step for `false`, the direction list
`p` leads to node `j`. -/
def followsTo : List Bool → Heap → Nat → Nat → Prop
  | [], _, r, j => r = j
  | d :: p, h, r, j =>
    ∃ c, (if d then (h r).left else (h r).right) = some c ∧ followsTo p h c j

/-- The node ids visited along a direction list (including both ends). -/
def pathIds : List Bool → Heap → Nat → List Nat
  | [], _, r => [r]
  | d :: p, h, r =>
    match if d then (h r).left else (h r).right with
    | some c => r :: pathIds p h c
    | none => [r]

/-! ### Theorems -/

/-- C1.  Adding seven Detached nodes with keys 1..7 in ascending order to
an empty tree does *not* produce a balanced 7-node tree with root key 4:
because `__avl_add`'s greater-than branch returns the result of the
recursive call (`return root->right = __avl_add(...)`), the root pointer
ends at the last inserted node (key 7) and only that single node is
reachable from the root. -/
theorem C1_code_evaluation :
    stB.1.root = some 7 ∧ (stB.2 7).key = 7 ∧
    subtreeIds bigFuel stB.2 stB.1.root = [7] := by decide

/-- C2.  The balance invariant fails: after `Add`s of keys 2, 1, 3, 2 and
a `Delete` of a current member (id 3, reachable at deletion time) and one
more `Add` of key 1, the node id 3 is reachable from the root and has
balance factor 2 — both as cached (`avl_get_balance`) and as recomputed
from actual subtree heights. -/
theorem C2_code_evaluation :
    3 ∈ subtreeIds bigFuel stBal1.2 stBal1.1.root ∧
    stBal3.1.root = some 3 ∧
    avl_get_balance stBal3.2 3 = 2 ∧
    subtreeHeight bigFuel stBal3.2 (stBal3.2 3).left -
      subtreeHeight bigFuel stBal3.2 (stBal3.2 3).right = 2 := by decide

/-- C3.  Duplicate insertion is not a no-op: adding a Detached node (id 4)
whose key 3 equals the key of member id 3 of the well-formed tree rooted
at id 2 leaves every node's fields unchanged but *changes the tree's root
reference* from id 2 to id 3 (the propagated return value of
`return root->right = __avl_add(...)`). -/
theorem C3_code_evaluation :
    stDup.1.root = some 3 ∧ stDup.1.root ≠ some 2 ∧
    stDup.2 1 = heapDup 1 ∧ stDup.2 2 = heapDup 2 ∧
    stDup.2 3 = heapDup 3 ∧ stDup.2 4 = heapDup 4 := by decide

/-- C5.  The count invariant fails at N = 2, D = 0: after adding two
Detached nodes with distinct keys 1 and 2 to an empty tree, exactly one
node (not two) is reachable from the root. -/
theorem C5_code_evaluation :
    (subtreeIds bigFuel stCount.2 stCount.1.root).length = 1 := by decide

/-- C6.  Building from keys [20,10,30,5,15,25,35] by `Add` does not
produce the balanced tree the scenario assumes: the root ends at the node
with key 35 and only it is reachable, so the key-20 node is not even a
member.  By contrast, `avl_del` applied to the *well-formed* balanced tree
over the same keys does behave as the claim describes: key 15 (maximum of
the left subtree) becomes the root, the in-order sequence is
[5,10,15,25,30,35], every reachable node is balanced, and the deleted node
(id 1) is unreachable. -/
theorem C6_code_evaluation :
    (stScC.1.root = some 7 ∧ (stScC.2 7).key = 35 ∧
      subtreeIds bigFuel stScC.2 stScC.1.root = [7]) ∧
    (stScCw.1.root = some 5 ∧ (stScCw.2 5).key = 15 ∧
      inorderKeys bigFuel stScCw.2 stScCw.1.root = [5, 10, 15, 25, 30, 35] ∧
      (subtreeIds bigFuel stScCw.2 stScCw.1.root).all
        (fun j => avl_is_balanced stScCw.2 j) = true ∧
      1 ∉ subtreeIds bigFuel stScCw.2 stScCw.1.root) := by decide

/-- C4 counterexample.  The tied sub-case does *not* signal "continue
walking upward".  First part: in the state `heapTiedMid` reached by
`avl_del` just before its walk (a genuine deletion from a well-formed
tree), the unbalanced node id 1 has a tied left child (balance 0) and
`avl_do_balancing` returns `FALSE` — the value on which `avl_del`'s loop
breaks.  Second part: in `heapWalk` the walk position id 2 is unbalanced
with tied child, and the walk halts right after that one rotation, leaving
its ancestor id 1 — still reachable as the root — with balance factor 2,
so the walk does not keep visiting and rebalancing higher ancestors. -/
theorem C4_counterexample :
    (avl_get_balance heapTiedMid 1 = 2 ∧
      (heapTiedMid 1).left = some 2 ∧ avl_get_balance heapTiedMid 2 = 0 ∧
      (avl_do_balancing bigFuel ⟨some 1⟩ heapTiedMid 1).1 = false) ∧
    (avl_get_balance heapWalk 2 = 2 ∧
      (heapWalk 2).left = some 3 ∧ avl_get_balance heapWalk 3 = 0 ∧
      (heapWalk 2).parent = some 1 ∧
      stWalk.1.root = some 1 ∧
      avl_get_balance stWalk.2 1 = 2 ∧
      subtreeHeight bigFuel stWalk.2 (stWalk.2 1).left -
        subtreeHeight bigFuel stWalk.2 (stWalk.2 1).right = 2) := by decide

/-- C8 counterexample.  Adding a Detached node id 3 (key 31) to the
well-formed tree `{30 (root, id 1), 36 (right child, id 2)}` succeeds
(no duplicate), and the insertion descent's leaf parent is id 2; but in
the final state the inserted node's parent is `none` (not id 2), its
children are ids 1 and 2 (not absent), and its height is 2 (not 1): the
rebalancing rotation promoted the new node. -/
theorem C8_counterexample :
    addDescent bigFuel heapIns (some 1) none 31 = some (some 2) ∧
    (heapIns 3).left = none ∧ (heapIns 3).right = none ∧
    (stIns.2 3).parent = none ∧ (stIns.2 3).parent ≠ some 2 ∧
    (stIns.2 3).left = some 1 ∧ (stIns.2 3).right = some 2 ∧
    (stIns.2 3).height = 2 := by decide

/-! ### Helper lemmas -/

theorem writeNode_same (h : Heap) (i : Nat) (f : AvlNode → AvlNode) :
    writeNode h i f i = f (h i) := by
  simp [writeNode]

theorem writeNode_other (h : Heap) (i j : Nat) (f : AvlNode → AvlNode)
    (hne : j ≠ i) : writeNode h i f j = h j := by
  simp [writeNode, hne]

/-- C10.  When the node to delete has no parent and at most one child,
`avl_del` installs its single child (or absence) as the new root, clears
that child's parent back-reference, and changes nothing else: no height
recomputation, no rotation, and every node other than the child keeps all
its fields. -/
theorem C10_delete_at_root (fuel : Nat) (t : AvlTree) (h : Heap)
    (node : Nat) (c? : Option Nat)
    (hpar : (h node).parent = none)
    (hnotboth : ((h node).left.isSome && (h node).right.isSome) = false)
    (hc : (match (h node).left with
           | some l => some l
           | none => (h node).right) = c?) :
    (avl_del fuel t h node).1.root = c? ∧
    (∀ c, c? = some c →
      (avl_del fuel t h node).2 c = { h c with parent := none }) ∧
    (∀ j, c? ≠ some j → (avl_del fuel t h node).2 j = h j) := by
  unfold avl_del
  simp only [hnotboth, Bool.false_eq_true, if_false, hpar, hc]
  simp only [writeSlot, readSlot]
  cases c? with
  | none =>
    simp only [hpar]
    refine ⟨by trivial, ?_, ?_⟩
    · intro c hc'
      simp at hc'
    · intro j _
      trivial
  | some c =>
    have hc3 : (writeNode h c
        (fun n => { n with parent := (h node).parent }) node).parent
        = none := by
      by_cases hnc : node = c
      · subst hnc; rw [writeNode_same]; exact hpar
      · rw [writeNode_other _ _ _ _ hnc]; exact hpar
    simp only [hpar] at hc3 ⊢
    simp only [hc3]
    refine ⟨by trivial, ?_, ?_⟩
    · intro c' hc'
      cases hc'
      rw [writeNode_same]
    · intro j hj
      have hjc : j ≠ c := fun hh => hj (by rw [hh])
      rw [writeNode_other _ _ _ _ hjc]

/-- C10 witness: deleting the root of the two-node tree
`{30 (root, id 1), 36 (right child, id 2)}` installs id 2 as the root,
clears its parent, and leaves every other node untouched. -/
theorem C10_delete_at_root_witness :
    (avl_del 30 ⟨some 1⟩ heapIns 1).1.root = some 2 ∧
    (avl_del 30 ⟨some 1⟩ heapIns 1).2 2 = { heapIns 2 with parent := none } ∧
    (avl_del 30 ⟨some 1⟩ heapIns 1).2 1 = heapIns 1 := by
  have h := C10_delete_at_root 30 ⟨some 1⟩ heapIns 1 (some 2)
    (by decide) (by decide) (by decide)
  exact ⟨h.1, h.2.1 2 rfl, h.2.2 1 (by decide)⟩

theorem matchFst_aux (fuel : Nat) (res : Bool × AvlTree × Heap) :
    (match res.2.1.root with
     | some rt => (res.1, res.2.1, avl_set_height fuel res.2.2 rt)
     | none => res).1 = res.1 := by
  rcases res with ⟨b, t2, h2⟩
  cases hr : t2.root <;> simp [hr]

/-- C4 (amended).  The rebalance driver returns `FALSE` exactly in the
tied sub-case (the heavy child has balance exactly 0) and `TRUE` in every
other case; `avl_del`'s walk interprets `FALSE` as "stop" (the loop
breaks, performing no further visits) and `TRUE` as "continue upward":
after a `TRUE` rotation it advances past the promoted node and keeps
walking.  So — inversely to the claim — the tied sub-case is the one that
halts the upward walk, and every other rotation case lets it continue. -/
theorem C4_amended_driver (fuel : Nat) (t : AvlTree) (h : Heap)
    (node : Nat) :
    (∀ l, (h node).left = some l → avl_get_balance h node > 0 →
      ((avl_do_balancing fuel t h node).1 = false ↔
        avl_get_balance h l = 0)) ∧
    (∀ r, (h node).right = some r → avl_get_balance h node < 0 →
      ((avl_do_balancing fuel t h node).1 = false ↔
        avl_get_balance h r = 0)) ∧
    (¬ avl_get_balance h node > 0 → ¬ avl_get_balance h node < 0 →
      (avl_do_balancing fuel t h node).1 = true) ∧
    (∀ f t' h', avl_is_balanced h' node = false →
      (avl_do_balancing (f + 1) t' h' node).1 = false →
      avlDelWalk (f + 1) t' h' (some node) =
        (avl_do_balancing (f + 1) t' h' node).2) ∧
    (∀ f t' h' j, avl_is_balanced h' node = false →
      (avl_do_balancing (f + 1) t' h' node).1 = true →
      ((avl_do_balancing (f + 1) t' h' node).2.2 node).parent = some j →
      avlDelWalk (f + 1) t' h' (some node) =
        avlDelWalk f (avl_do_balancing (f + 1) t' h' node).2.1
          (avl_do_balancing (f + 1) t' h' node).2.2
          (((avl_do_balancing (f + 1) t' h' node).2.2 j).parent)) := by
  refine ⟨?_, ?_, ?_, ?_, ?_⟩
  · intro l hl hbal
    unfold avl_do_balancing
    rw [matchFst_aux]
    simp only [hbal, if_pos, hl]
    by_cases h1 : avl_get_balance h l > 0
    · simp [h1]; omega
    · by_cases h2 : avl_get_balance h l < 0
      · simp [h1, h2]; omega
      · simp [h1, h2]; omega
  · intro r hr hbal
    unfold avl_do_balancing
    rw [matchFst_aux]
    have hnb : ¬ avl_get_balance h node > 0 := by omega
    simp only [hnb, if_false, hbal, if_pos, hr]
    by_cases h1 : avl_get_balance h r < 0
    · simp [h1]; omega
    · by_cases h2 : avl_get_balance h r > 0
      · simp [h1, h2]; omega
      · simp [h1, h2]; omega
  · intro h1 h2
    unfold avl_do_balancing
    rw [matchFst_aux]
    simp [h1, h2]
  · intro f t' h' hub hfalse
    unfold avlDelWalk
    simp [hub, hfalse]
  · intro f t' h' j hub htrue hj
    conv_lhs => unfold avlDelWalk
    simp [hub, htrue, hj]

/-- C4 witness: in the post-splice state of deleting key 5 from the
well-formed 5-node tree (`heapTiedMid`), the root id 1 is unbalanced with
a tied left child id 2, and the driver indeed returns `FALSE`. -/
theorem C4_amended_driver_witness :
    (avl_do_balancing 30 ⟨some 1⟩ heapTiedMid 1).1 = false :=
  ((C4_amended_driver 30 ⟨some 1⟩ heapTiedMid 1).1 2 (by decide)
    (by decide)).mpr (by decide)

theorem rrPost (t : AvlTree) (h : Heap) (slot : Slot) (node r : Nat)
    (hs : readSlot t h slot = some node)
    (hr : (h node).right = some r)
    (hnr : node ≠ r)
    (hrl : ∀ x, (h r).left = some x → x ≠ node ∧ x ≠ r)
    (hso : ∀ q, slotOwner slot = some q →
      q ≠ node ∧ q ≠ r ∧ ∀ x, (h r).left = some x → q ≠ x) :
    readSlot (avl_rotate_rr t h slot node).1
      (avl_rotate_rr t h slot node).2 slot = some r ∧
    ((avl_rotate_rr t h slot node).2 node).right = (h r).left ∧
    (∀ x, (h r).left = some x →
      ((avl_rotate_rr t h slot node).2 x).parent = some node) ∧
    ((avl_rotate_rr t h slot node).2 r).left = some node ∧
    ((avl_rotate_rr t h slot node).2 node).parent = some r ∧
    ((avl_rotate_rr t h slot node).2 r).parent = (h node).parent ∧
    ((avl_rotate_rr t h slot node).2 node).left = (h node).left ∧
    ((avl_rotate_rr t h slot node).2 node).key = (h node).key ∧
    ((avl_rotate_rr t h slot node).2 node).height = (h node).height ∧
    ((avl_rotate_rr t h slot node).2 r).right = (h r).right ∧
    ((avl_rotate_rr t h slot node).2 r).key = (h r).key ∧
    ((avl_rotate_rr t h slot node).2 r).height = (h r).height ∧
    (∀ x, (h r).left = some x →
      ((avl_rotate_rr t h slot node).2 x).left = (h x).left ∧
      ((avl_rotate_rr t h slot node).2 x).right = (h x).right ∧
      ((avl_rotate_rr t h slot node).2 x).key = (h x).key ∧
      ((avl_rotate_rr t h slot node).2 x).height = (h x).height) ∧
    (∀ j, j ≠ node → j ≠ r → (h r).left ≠ some j →
      slotOwner slot ≠ some j → (avl_rotate_rr t h slot node).2 j = h j) ∧
    (∀ q, slotOwner slot = some q → (avl_rotate_rr t h slot node).1 = t) := by
  have hrn : r ≠ node := Ne.symm hnr
  cases slot with
  | sroot =>
    simp only [avl_rotate_rr, hr, writeSlot, readSlot, slotOwner]
    cases hx : (h r).left with
    | none =>
      simp_all [writeNode]
    | some x =>
      obtain ⟨hxn, hxr⟩ := hrl x hx
      have hnx : node ≠ x := Ne.symm hxn
      have hrx : r ≠ x := Ne.symm hxr
      simp_all [writeNode]
      intros; omega
  | sleft q =>
    obtain ⟨hqn, hqr, hqx⟩ := hso q rfl
    have hnq : node ≠ q := Ne.symm hqn
    have hrq : r ≠ q := Ne.symm hqr
    simp only [avl_rotate_rr, hr, writeSlot, readSlot, slotOwner]
    cases hx : (h r).left with
    | none =>
      simp_all [writeNode]
      intros; omega
    | some x =>
      obtain ⟨hxn, hxr⟩ := hrl x hx
      have hnx : node ≠ x := Ne.symm hxn
      have hrx : r ≠ x := Ne.symm hxr
      have hqx' : q ≠ x := hqx x hx
      have hxq : x ≠ q := Ne.symm hqx'
      simp_all [writeNode]
      intro j hj1 hj2 hj3 hj4
      rw [if_neg (Ne.symm hj4), if_neg (Ne.symm hj3)]
  | sright q =>
    obtain ⟨hqn, hqr, hqx⟩ := hso q rfl
    have hnq : node ≠ q := Ne.symm hqn
    have hrq : r ≠ q := Ne.symm hqr
    simp only [avl_rotate_rr, hr, writeSlot, readSlot, slotOwner]
    cases hx : (h r).left with
    | none =>
      simp_all [writeNode]
      intros; omega
    | some x =>
      obtain ⟨hxn, hxr⟩ := hrl x hx
      have hnx : node ≠ x := Ne.symm hxn
      have hrx : r ≠ x := Ne.symm hxr
      have hqx' : q ≠ x := hqx x hx
      have hxq : x ≠ q := Ne.symm hqx'
      simp_all [writeNode]
      intro j hj1 hj2 hj3 hj4
      rw [if_neg (Ne.symm hj4), if_neg (Ne.symm hj3)]

theorem llPost (t : AvlTree) (h : Heap) (slot : Slot) (node l : Nat)
    (hs : readSlot t h slot = some node)
    (hl : (h node).left = some l)
    (hnl : node ≠ l)
    (hlr : ∀ x, (h l).right = some x → x ≠ node ∧ x ≠ l)
    (hso : ∀ q, slotOwner slot = some q →
      q ≠ node ∧ q ≠ l ∧ ∀ x, (h l).right = some x → q ≠ x) :
    readSlot (avl_rotate_ll t h slot node).1
      (avl_rotate_ll t h slot node).2 slot = some l ∧
    ((avl_rotate_ll t h slot node).2 node).left = (h l).right ∧
    (∀ x, (h l).right = some x →
      ((avl_rotate_ll t h slot node).2 x).parent = some node) ∧
    ((avl_rotate_ll t h slot node).2 l).right = some node ∧
    ((avl_rotate_ll t h slot node).2 node).parent = some l ∧
    ((avl_rotate_ll t h slot node).2 l).parent = (h node).parent ∧
    ((avl_rotate_ll t h slot node).2 node).right = (h node).right ∧
    ((avl_rotate_ll t h slot node).2 node).key = (h node).key ∧
    ((avl_rotate_ll t h slot node).2 node).height = (h node).height ∧
    ((avl_rotate_ll t h slot node).2 l).left = (h l).left ∧
    ((avl_rotate_ll t h slot node).2 l).key = (h l).key ∧
    ((avl_rotate_ll t h slot node).2 l).height = (h l).height ∧
    (∀ x, (h l).right = some x →
      ((avl_rotate_ll t h slot node).2 x).left = (h x).left ∧
      ((avl_rotate_ll t h slot node).2 x).right = (h x).right ∧
      ((avl_rotate_ll t h slot node).2 x).key = (h x).key ∧
      ((avl_rotate_ll t h slot node).2 x).height = (h x).height) ∧
    (∀ j, j ≠ node → j ≠ l → (h l).right ≠ some j →
      slotOwner slot ≠ some j → (avl_rotate_ll t h slot node).2 j = h j) ∧
    (∀ q, slotOwner slot = some q → (avl_rotate_ll t h slot node).1 = t) := by
  have hln : l ≠ node := Ne.symm hnl
  cases slot with
  | sroot =>
    simp only [avl_rotate_ll, hl, writeSlot, readSlot, slotOwner]
    cases hx : (h l).right with
    | none =>
      simp_all [writeNode]
    | some x =>
      obtain ⟨hxn, hxl⟩ := hlr x hx
      have hnx : node ≠ x := Ne.symm hxn
      have hlx : l ≠ x := Ne.symm hxl
      simp_all [writeNode]
      intros; omega
  | sleft q =>
    obtain ⟨hqn, hql, hqx⟩ := hso q rfl
    have hnq : node ≠ q := Ne.symm hqn
    have hlq : l ≠ q := Ne.symm hql
    simp only [avl_rotate_ll, hl, writeSlot, readSlot, slotOwner]
    cases hx : (h l).right with
    | none =>
      simp_all [writeNode]
      intros; omega
    | some x =>
      obtain ⟨hxn, hxl⟩ := hlr x hx
      have hnx : node ≠ x := Ne.symm hxn
      have hlx : l ≠ x := Ne.symm hxl
      have hqx' : q ≠ x := hqx x hx
      have hxq : x ≠ q := Ne.symm hqx'
      simp_all [writeNode]
      intro j hj1 hj2 hj3 hj4
      rw [if_neg (Ne.symm hj4), if_neg (Ne.symm hj3)]
  | sright q =>
    obtain ⟨hqn, hql, hqx⟩ := hso q rfl
    have hnq : node ≠ q := Ne.symm hqn
    have hlq : l ≠ q := Ne.symm hql
    simp only [avl_rotate_ll, hl, writeSlot, readSlot, slotOwner]
    cases hx : (h l).right with
    | none =>
      simp_all [writeNode]
      intros; omega
    | some x =>
      obtain ⟨hxn, hxl⟩ := hlr x hx
      have hnx : node ≠ x := Ne.symm hxn
      have hlx : l ≠ x := Ne.symm hxl
      have hqx' : q ≠ x := hqx x hx
      have hxq : x ≠ q := Ne.symm hqx'
      simp_all [writeNode]
      intro j hj1 hj2 hj3 hj4
      rw [if_neg (Ne.symm hj4), if_neg (Ne.symm hj3)]

theorem lrSlot (t : AvlTree) (h : Heap) (slot : Slot) (node l b : Nat)
    (hs : readSlot t h slot = some node)
    (hl : (h node).left = some l)
    (hb : (h l).right = some b)
    (hnl : node ≠ l) (hnb : node ≠ b) (hlb : l ≠ b)
    (hbl : ∀ x, (h b).left = some x → x ≠ node ∧ x ≠ l ∧ x ≠ b)
    (hbr : ∀ x, (h b).right = some x → x ≠ node ∧ x ≠ l ∧ x ≠ b)
    (hso : ∀ q, slotOwner slot = some q →
      q ≠ node ∧ q ≠ l ∧ q ≠ b ∧
      (∀ x, (h b).left = some x → q ≠ x) ∧
      (∀ x, (h b).right = some x → q ≠ x)) :
    readSlot (avl_rotate_lr t h slot node).1
      (avl_rotate_lr t h slot node).2 slot = some b := by
  have heq : avl_rotate_lr t h slot node =
      avl_rotate_ll (avl_rotate_rr t h (.sleft node) l).1
        (avl_rotate_rr t h (.sleft node) l).2 slot node := by
    simp [avl_rotate_lr, hl]
  rw [heq]
  have hrr := rrPost t h (.sleft node) l b (by simpa [readSlot] using hl) hb
    hlb (fun x hx => ⟨(hbl x hx).2.1, (hbl x hx).2.2⟩)
    (fun q hq => by
      simp only [slotOwner, Option.some.injEq] at hq
      subst hq
      exact ⟨hnl, hnb, fun x hx => Ne.symm (hbl x hx).1⟩)
  set s1 := avl_rotate_rr t h (.sleft node) l with hs1
  obtain ⟨c1, _, _, _, _, _, _, _, _, c10, _, _, _, c14, c15⟩ := hrr
  have hb1 : (s1.2 node).left = some b := by
    simpa [readSlot] using c1
  have hslot1 : readSlot s1.1 s1.2 slot = some node := by
    cases slot with
    | sroot =>
      have := c15 node rfl
      simp only [readSlot] at hs ⊢
      rw [this]
      exact hs
    | sleft q =>
      obtain ⟨hq1, hq2, hq3, hq4, hq5⟩ := hso q rfl
      have := c14 q hq2 hq3
        (fun hc => by
          cases hx : (h b).left with
          | none => rw [hx] at hc; exact Option.noConfusion hc
          | some x =>
            rw [hx] at hc
            exact hq4 x hx (Option.some.injEq _ _ ▸ hc.symm))
        (by simp [slotOwner]; exact Ne.symm hq1)
      simp only [readSlot] at hs ⊢
      rw [this]
      exact hs
    | sright q =>
      obtain ⟨hq1, hq2, hq3, hq4, hq5⟩ := hso q rfl
      have := c14 q hq2 hq3
        (fun hc => by
          cases hx : (h b).left with
          | none => rw [hx] at hc; exact Option.noConfusion hc
          | some x =>
            rw [hx] at hc
            exact hq4 x hx (Option.some.injEq _ _ ▸ hc.symm))
        (by simp [slotOwner]; exact Ne.symm hq1)
      simp only [readSlot] at hs ⊢
      rw [this]
      exact hs
  have hbr1 : (s1.2 b).right = (h b).right := c10
  have hll := llPost s1.1 s1.2 slot node b hslot1 hb1 hnb
    (fun x hx => by
      rw [hbr1] at hx
      exact ⟨(hbr x hx).1, (hbr x hx).2.2⟩)
    (fun q hq => by
      obtain ⟨hq1, hq2, hq3, hq4, hq5⟩ := hso q hq
      exact ⟨hq1, hq3, fun x hx => by rw [hbr1] at hx; exact hq5 x hx⟩)
  exact hll.1

theorem rlSlot (t : AvlTree) (h : Heap) (slot : Slot) (node r b : Nat)
    (hs : readSlot t h slot = some node)
    (hr : (h node).right = some r)
    (hb : (h r).left = some b)
    (hnr : node ≠ r) (hnb : node ≠ b) (hrb : r ≠ b)
    (hbr : ∀ x, (h b).right = some x → x ≠ node ∧ x ≠ r ∧ x ≠ b)
    (hbl : ∀ x, (h b).left = some x → x ≠ node ∧ x ≠ r ∧ x ≠ b)
    (hso : ∀ q, slotOwner slot = some q →
      q ≠ node ∧ q ≠ r ∧ q ≠ b ∧
      (∀ x, (h b).right = some x → q ≠ x) ∧
      (∀ x, (h b).left = some x → q ≠ x)) :
    readSlot (avl_rotate_rl t h slot node).1
      (avl_rotate_rl t h slot node).2 slot = some b := by
  have heq : avl_rotate_rl t h slot node =
      avl_rotate_rr (avl_rotate_ll t h (.sright node) r).1
        (avl_rotate_ll t h (.sright node) r).2 slot node := by
    simp [avl_rotate_rl, hr]
  rw [heq]
  have hll := llPost t h (.sright node) r b (by simpa [readSlot] using hr) hb
    hrb (fun x hx => ⟨(hbr x hx).2.1, (hbr x hx).2.2⟩)
    (fun q hq => by
      simp only [slotOwner, Option.some.injEq] at hq
      subst hq
      exact ⟨hnr, hnb, fun x hx => Ne.symm (hbr x hx).1⟩)
  set s1 := avl_rotate_ll t h (.sright node) r with hs1
  obtain ⟨c1, _, _, _, _, _, _, _, _, c10, _, _, _, c14, c15⟩ := hll
  have hb1 : (s1.2 node).right = some b := by
    simpa [readSlot] using c1
  have hslot1 : readSlot s1.1 s1.2 slot = some node := by
    cases slot with
    | sroot =>
      have := c15 node rfl
      simp only [readSlot] at hs ⊢
      rw [this]
      exact hs
    | sleft q =>
      obtain ⟨hq1, hq2, hq3, hq4, hq5⟩ := hso q rfl
      have := c14 q hq2 hq3
        (fun hc => by
          cases hx : (h b).right with
          | none => rw [hx] at hc; exact Option.noConfusion hc
          | some x =>
            rw [hx] at hc
            exact hq4 x hx (Option.some.injEq _ _ ▸ hc.symm))
        (by simp [slotOwner]; exact Ne.symm hq1)
      simp only [readSlot] at hs ⊢
      rw [this]
      exact hs
    | sright q =>
      obtain ⟨hq1, hq2, hq3, hq4, hq5⟩ := hso q rfl
      have := c14 q hq2 hq3
        (fun hc => by
          cases hx : (h b).right with
          | none => rw [hx] at hc; exact Option.noConfusion hc
          | some x =>
            rw [hx] at hc
            exact hq4 x hx (Option.some.injEq _ _ ▸ hc.symm))
        (by simp [slotOwner]; exact Ne.symm hq1)
      simp only [readSlot] at hs ⊢
      rw [this]
      exact hs
  have hbl1 : (s1.2 b).left = (h b).left := c10
  have hrr := rrPost s1.1 s1.2 slot node b hslot1 hb1 hnb
    (fun x hx => by
      rw [hbl1] at hx
      exact ⟨(hbl x hx).1, (hbl x hx).2.2⟩)
    (fun q hq => by
      obtain ⟨hq1, hq2, hq3, hq4, hq5⟩ := hso q hq
      exact ⟨hq1, hq3, fun x hx => by rw [hbl1] at hx; exact hq5 x hx⟩)
  exact hrr.1

/-- C7.  Rotation contracts, each under its precondition (the slot holds
the node and the required child/grandchild exists, with the participating
nodes distinct as they are in any well-formed tree).  First block (LL):
`node.left` is promoted into the slot, the promoted node's former right
child becomes node's new left child with its parent back-reference
updated, node becomes the promoted node's right child, and every node not
repointed is untouched.  Second block (RR): the exact mirror.  Third and
fourth: LR literally equals RR applied at `node.left`'s slot followed by
LL at `node`, and RL the mirror.  Fifth and sixth: in the LR and RL cases
the original slot ends up holding the promoted grandchild, the new local
root. -/
theorem C7_rotations (t : AvlTree) (h : Heap) :
    (∀ slot node l,
      readSlot t h slot = some node →
      (h node).left = some l →
      node ≠ l →
      (∀ x, (h l).right = some x → x ≠ node ∧ x ≠ l) →
      (∀ q, slotOwner slot = some q →
        q ≠ node ∧ q ≠ l ∧ ∀ x, (h l).right = some x → q ≠ x) →
      readSlot (avl_rotate_ll t h slot node).1
        (avl_rotate_ll t h slot node).2 slot = some l ∧
      ((avl_rotate_ll t h slot node).2 node).left = (h l).right ∧
      (∀ x, (h l).right = some x →
        ((avl_rotate_ll t h slot node).2 x).parent = some node) ∧
      ((avl_rotate_ll t h slot node).2 l).right = some node ∧
      ((avl_rotate_ll t h slot node).2 node).parent = some l ∧
      ((avl_rotate_ll t h slot node).2 l).parent = (h node).parent ∧
      ((avl_rotate_ll t h slot node).2 node).right = (h node).right ∧
      ((avl_rotate_ll t h slot node).2 l).left = (h l).left ∧
      (∀ j, j ≠ node → j ≠ l → (h l).right ≠ some j →
        slotOwner slot ≠ some j →
        (avl_rotate_ll t h slot node).2 j = h j)) ∧
    (∀ slot node r,
      readSlot t h slot = some node →
      (h node).right = some r →
      node ≠ r →
      (∀ x, (h r).left = some x → x ≠ node ∧ x ≠ r) →
      (∀ q, slotOwner slot = some q →
        q ≠ node ∧ q ≠ r ∧ ∀ x, (h r).left = some x → q ≠ x) →
      readSlot (avl_rotate_rr t h slot node).1
        (avl_rotate_rr t h slot node).2 slot = some r ∧
      ((avl_rotate_rr t h slot node).2 node).right = (h r).left ∧
      (∀ x, (h r).left = some x →
        ((avl_rotate_rr t h slot node).2 x).parent = some node) ∧
      ((avl_rotate_rr t h slot node).2 r).left = some node ∧
      ((avl_rotate_rr t h slot node).2 node).parent = some r ∧
      ((avl_rotate_rr t h slot node).2 r).parent = (h node).parent ∧
      ((avl_rotate_rr t h slot node).2 node).left = (h node).left ∧
      ((avl_rotate_rr t h slot node).2 r).right = (h r).right ∧
      (∀ j, j ≠ node → j ≠ r → (h r).left ≠ some j →
        slotOwner slot ≠ some j →
        (avl_rotate_rr t h slot node).2 j = h j)) ∧
    (∀ slot node l, (h node).left = some l →
      avl_rotate_lr t h slot node =
        avl_rotate_ll (avl_rotate_rr t h (.sleft node) l).1
          (avl_rotate_rr t h (.sleft node) l).2 slot node) ∧
    (∀ slot node r, (h node).right = some r →
      avl_rotate_rl t h slot node =
        avl_rotate_rr (avl_rotate_ll t h (.sright node) r).1
          (avl_rotate_ll t h (.sright node) r).2 slot node) ∧
    (∀ slot node l b,
      readSlot t h slot = some node →
      (h node).left = some l →
      (h l).right = some b →
      node ≠ l → node ≠ b → l ≠ b →
      (∀ x, (h b).left = some x → x ≠ node ∧ x ≠ l ∧ x ≠ b) →
      (∀ x, (h b).right = some x → x ≠ node ∧ x ≠ l ∧ x ≠ b) →
      (∀ q, slotOwner slot = some q →
        q ≠ node ∧ q ≠ l ∧ q ≠ b ∧
        (∀ x, (h b).left = some x → q ≠ x) ∧
        (∀ x, (h b).right = some x → q ≠ x)) →
      readSlot (avl_rotate_lr t h slot node).1
        (avl_rotate_lr t h slot node).2 slot = some b) ∧
    (∀ slot node r b,
      readSlot t h slot = some node →
      (h node).right = some r →
      (h r).left = some b →
      node ≠ r → node ≠ b → r ≠ b →
      (∀ x, (h b).right = some x → x ≠ node ∧ x ≠ r ∧ x ≠ b) →
      (∀ x, (h b).left = some x → x ≠ node ∧ x ≠ r ∧ x ≠ b) →
      (∀ q, slotOwner slot = some q →
        q ≠ node ∧ q ≠ r ∧ q ≠ b ∧
        (∀ x, (h b).right = some x → q ≠ x) ∧
        (∀ x, (h b).left = some x → q ≠ x)) →
      readSlot (avl_rotate_rl t h slot node).1
        (avl_rotate_rl t h slot node).2 slot = some b) := by
  refine ⟨?_, ?_, ?_, ?_, ?_, ?_⟩
  · intro slot node l hs hl hnl hlr hso
    obtain ⟨c1, c2, c3, c4, c5, c6, c7, _, _, c10, _, _, _, c14, _⟩ :=
      llPost t h slot node l hs hl hnl hlr hso
    exact ⟨c1, c2, c3, c4, c5, c6, c7, c10, c14⟩
  · intro slot node r hs hr hnr hrl hso
    obtain ⟨c1, c2, c3, c4, c5, c6, c7, _, _, c10, _, _, _, c14, _⟩ :=
      rrPost t h slot node r hs hr hnr hrl hso
    exact ⟨c1, c2, c3, c4, c5, c6, c7, c10, c14⟩
  · intro slot node l hl
    simp [avl_rotate_lr, hl]
  · intro slot node r hr
    simp [avl_rotate_rl, hr]
  · intro slot node l b hs hl hb hnl hnb hlb hbl hbr hso
    exact lrSlot t h slot node l b hs hl hb hnl hnb hlb hbl hbr hso
  · intro slot node r b hs hr hb hnr hnb hrb hbr hbl hso
    exact rlSlot t h slot node r b hs hr hb hnr hnb hrb hbr hbl hso

/-- C7 witness: an RR rotation at the root slot of the spine
`10 → 20 → 15` (ids 1, 2, 3) makes id 2 the root, hands id 2's former
left child id 3 to id 1 (with its back-reference repointed to id 1), and
makes id 1 the left child of id 2; an RL rotation at the same
configuration promotes the grandchild id 3 into the slot. -/
theorem C7_rotations_witness :
    (avl_rotate_rr ⟨some 1⟩ heapRot .sroot 1).1.root = some 2 ∧
    ((avl_rotate_rr ⟨some 1⟩ heapRot .sroot 1).2 1).right = some 3 ∧
    ((avl_rotate_rr ⟨some 1⟩ heapRot .sroot 1).2 3).parent = some 1 ∧
    ((avl_rotate_rr ⟨some 1⟩ heapRot .sroot 1).2 2).left = some 1 ∧
    (avl_rotate_rl ⟨some 1⟩ heapRot .sroot 1).1.root = some 3 := by
  have hc := C7_rotations ⟨some 1⟩ heapRot
  have hrl : ∀ x, (heapRot 2).left = some x → x ≠ 1 ∧ x ≠ 2 := by
    intro x hx
    simp only [heapRot] at hx
    norm_num at hx
    subst hx
    exact ⟨by decide, by decide⟩
  have hso : ∀ q, slotOwner Slot.sroot = some q →
      q ≠ 1 ∧ q ≠ 2 ∧ ∀ x, (heapRot 2).left = some x → q ≠ x := by
    intro q hq
    simp [slotOwner] at hq
  have hrr := hc.2.1 .sroot 1 2 rfl rfl (by decide) hrl hso
  have hb3 : ∀ x, (heapRot 3).right = some x → x ≠ 1 ∧ x ≠ 2 ∧ x ≠ 3 := by
    intro x hx
    simp [heapRot] at hx
  have hb3l : ∀ x, (heapRot 3).left = some x → x ≠ 1 ∧ x ≠ 2 ∧ x ≠ 3 := by
    intro x hx
    simp [heapRot] at hx
  have hso2 : ∀ q, slotOwner Slot.sroot = some q →
      q ≠ 1 ∧ q ≠ 2 ∧ q ≠ 3 ∧
      (∀ x, (heapRot 3).right = some x → q ≠ x) ∧
      (∀ x, (heapRot 3).left = some x → q ≠ x) := by
    intro q hq
    simp [slotOwner] at hq
  have hrlx := hc.2.2.2.2.2 .sroot 1 2 3 rfl rfl rfl (by decide) (by decide)
    (by decide) hb3 hb3l hso2
  exact ⟨hrr.1, hrr.2.1, hrr.2.2.1 3 rfl, hrr.2.2.2.1, hrlx⟩

theorem avl_cmp_pos (a b : Int) : avl_cmp a b > 0 ↔ b < a := by
  unfold avl_cmp
  split_ifs <;> omega

theorem avl_cmp_neg (a b : Int) : avl_cmp a b < 0 ↔ a < b := by
  unfold avl_cmp
  split_ifs <;> omega

theorem avlFindAux_spec (h : Heap) (node : Nat) :
    ∀ (fuel : Nat) (root : Option Nat), isBSTb fuel h root = true →
    (∀ i, avlFindAux fuel h root node = some i →
      i ∈ subtreeIds fuel h root ∧ (h i).key = (h node).key) ∧
    (avlFindAux fuel h root node = none →
      ∀ j ∈ subtreeIds fuel h root, (h j).key ≠ (h node).key) := by
  intro fuel
  induction fuel with
  | zero =>
    intro root hbst
    cases root with
    | none => simp [avlFindAux, subtreeIds]
    | some rt => simp [isBSTb] at hbst
  | succ f ih =>
    intro root hbst
    cases root with
    | none => simp [avlFindAux, subtreeIds]
    | some rt =>
      simp only [isBSTb, Bool.and_eq_true, List.all_eq_true,
        decide_eq_true_eq] at hbst
      obtain ⟨⟨⟨hleft, hright⟩, hbl⟩, hbr⟩ := hbst
      by_cases hgt : avl_cmp (h node).key (h rt).key > 0
      · have hklt : (h rt).key < (h node).key := (avl_cmp_pos _ _).mp hgt
        have ihr := ih (h rt).right hbr
        constructor
        · intro i hi
          simp only [avlFindAux, hgt, if_pos] at hi
          obtain ⟨hmem, hkey⟩ := ihr.1 i hi
          exact ⟨by simp [subtreeIds]; right; right; exact hmem, hkey⟩
        · intro hnone j hj
          simp only [avlFindAux, hgt, if_pos] at hnone
          simp only [subtreeIds, List.mem_cons, List.mem_append] at hj
          rcases hj with hj | hj | hj
          · subst hj; omega
          · have := hleft j hj; omega
          · exact ihr.2 hnone j hj
      · by_cases hlt : avl_cmp (h node).key (h rt).key < 0
        · have hklt : (h node).key < (h rt).key := (avl_cmp_neg _ _).mp hlt
          have ihl := ih (h rt).left hbl
          constructor
          · intro i hi
            simp only [avlFindAux, hgt, hlt, if_neg, if_pos] at hi
            obtain ⟨hmem, hkey⟩ := ihl.1 i hi
            exact ⟨by simp [subtreeIds]; right; left; exact hmem, hkey⟩
          · intro hnone j hj
            simp only [avlFindAux, hgt, hlt, if_neg, if_pos] at hnone
            simp only [subtreeIds, List.mem_cons, List.mem_append] at hj
            rcases hj with hj | hj | hj
            · subst hj; omega
            · exact ihl.2 hnone j hj
            · have := hright j hj; omega
        · have hkeq : (h node).key = (h rt).key := by
            have h1 := avl_cmp_pos (h node).key (h rt).key
            have h2 := avl_cmp_neg (h node).key (h rt).key
            omega
          constructor
          · intro i hi
            simp only [avlFindAux, hgt, hlt, if_neg] at hi
            cases hi
            exact ⟨by simp [subtreeIds], hkeq.symm⟩
          · intro hnone
            simp [avlFindAux, hgt, hlt] at hnone

/-- C9.  On a tree satisfying the BST ordering invariant, `avl_find`
returns a reachable node whose key equals the probe's key when the lookup
succeeds, and when it returns the absence signal no reachable node carries
the probe's key; the descent goes right when the probe compares greater
and left when it compares less.  (`avl_find` is a pure function of the
tree and heap in this embedding — it performs no writes, so the
no-mutation half of the claim holds by construction.) -/
theorem C9_find (fuel : Nat) (t : AvlTree) (h : Heap) (node : Nat)
    (hbst : isBSTb fuel h t.root = true) :
    (∀ i, avl_find fuel t h node = some i →
      i ∈ subtreeIds fuel h t.root ∧ (h i).key = (h node).key) ∧
    (avl_find fuel t h node = none →
      ∀ j ∈ subtreeIds fuel h t.root, (h j).key ≠ (h node).key) ∧
    (∀ f rt, t.root = some rt →
      avl_cmp (h node).key (h rt).key > 0 →
      avl_find (f + 1) t h node = avlFindAux f h (h rt).right node) ∧
    (∀ f rt, t.root = some rt →
      avl_cmp (h node).key (h rt).key < 0 →
      avl_find (f + 1) t h node = avlFindAux f h (h rt).left node) := by
  obtain ⟨hsome, hnone⟩ := avlFindAux_spec h node fuel t.root hbst
  refine ⟨hsome, hnone, ?_, ?_⟩
  · intro f rt hrt hgt
    simp [avl_find, hrt, avlFindAux, hgt]
  · intro f rt hrt hlt
    have hngt : ¬ avl_cmp (h node).key (h rt).key > 0 := by omega
    simp [avl_find, hrt, avlFindAux, hngt, hlt]

/-- C9 witness: in the well-formed tree rooted at id 2 (keys 1, 2, 3),
looking up the probe id 4 (key 3) finds the member id 3, a reachable node
carrying an equal key. -/
theorem C9_find_witness :
    3 ∈ subtreeIds 30 heapDup (AvlTree.root ⟨some 2⟩) ∧
    (heapDup 3).key = (heapDup 4).key :=
  (C9_find 30 ⟨some 2⟩ heapDup 4 (by decide)).1 3 (by decide)

theorem avl_set_height_fields (fuel : Nat) :
    ∀ (h : Heap) (i j : Nat),
      ((avl_set_height fuel h i) j).parent = (h j).parent ∧
      ((avl_set_height fuel h i) j).left = (h j).left ∧
      ((avl_set_height fuel h i) j).right = (h j).right ∧
      ((avl_set_height fuel h i) j).key = (h j).key := by
  induction fuel with
  | zero => intro h i j; simp [avl_set_height]
  | succ f ih =>
    intro h i j
    simp only [avl_set_height, writeNode_same]
    cases hL : (h i).left with
    | none =>
      simp only [writeNode_same]
      cases hR : (h i).right with
      | none =>
        by_cases hj : j = i <;> simp [writeNode, hj]
      | some r =>
        split <;> (try split) <;> (by_cases hj : j = i <;> simp [writeNode, hj, ih])
    | some l =>
      simp only [writeNode_same, ih]
      cases hR : (h i).right with
      | none =>
        by_cases hj : j = i <;> simp [writeNode, hj, ih]
      | some r =>
        split <;> (try split) <;> (by_cases hj : j = i <;> simp [writeNode, hj, ih])

theorem heightWrite_left (h : Heap) (i : Nat) (v : Int) (x : Nat) :
    ((writeNode h i fun n => { n with height := v }) x).left = (h x).left := by
  by_cases hx : x = i <;> simp [writeNode, hx]

theorem heightWrite_right (h : Heap) (i : Nat) (v : Int) (x : Nat) :
    ((writeNode h i fun n => { n with height := v }) x).right = (h x).right := by
  by_cases hx : x = i <;> simp [writeNode, hx]

theorem subtreeIds_ext (fuel : Nat) :
    ∀ (h h' : Heap) (o : Option Nat),
      (∀ x, (h' x).left = (h x).left) →
      (∀ x, (h' x).right = (h x).right) →
      subtreeIds fuel h' o = subtreeIds fuel h o := by
  induction fuel with
  | zero => intro h h' o _ _; cases o <;> simp [subtreeIds]
  | succ f ih =>
    intro h h' o hl hr
    cases o with
    | none => simp [subtreeIds]
    | some i =>
      simp only [subtreeIds, hl, hr]
      rw [ih h h' _ hl hr, ih h h' _ hl hr]

theorem subtreeIds_heightWrite (fuel : Nat) (h : Heap) (i : Nat) (v : Int)
    (o : Option Nat) :
    subtreeIds fuel (writeNode h i fun n => { n with height := v }) o =
      subtreeIds fuel h o :=
  subtreeIds_ext fuel h _ o (heightWrite_left h i v) (heightWrite_right h i v)

theorem subtreeIds_set_height (fuel g : Nat) (h : Heap) (i : Nat)
    (o : Option Nat) :
    subtreeIds fuel (avl_set_height g h i) o = subtreeIds fuel h o :=
  subtreeIds_ext fuel h _ o (fun x => (avl_set_height_fields g h i x).2.1)
    (fun x => (avl_set_height_fields g h i x).2.2.1)

theorem avl_set_height_untouched (fuel : Nat) :
    ∀ (h : Heap) (i j : Nat), j ∉ subtreeIds fuel h (some i) →
      avl_set_height fuel h i j = h j := by
  induction fuel with
  | zero => intro h i j _; simp [avl_set_height]
  | succ f ih =>
    intro h i j hj
    simp only [subtreeIds, List.mem_cons, List.mem_append] at hj
    push_neg at hj
    obtain ⟨hji, hjl, hjr⟩ := hj
    simp only [avl_set_height, writeNode_same]
    cases hL : (h i).left with
    | none =>
      simp only [writeNode_same]
      cases hR : (h i).right with
      | none => simp [writeNode, hji]
      | some r =>
        rw [hR] at hjr
        set h1 := writeNode h i (fun n => { n with height := 1 }) with eh1
        have hjr1 : j ∉ subtreeIds f h1 (some r) := by
          rw [eh1, subtreeIds_heightWrite]; exact hjr
        dsimp only
        split
        · rw [writeNode_other _ _ _ _ hji, ih h1 r j hjr1,
            eh1, writeNode_other _ _ _ _ hji]
        · rw [ih h1 r j hjr1, eh1, writeNode_other _ _ _ _ hji]
    | some l =>
      rw [hL] at hjl
      set h1 := writeNode h i (fun n => { n with height := 1 }) with eh1
      have hjl1 : j ∉ subtreeIds f h1 (some l) := by
        rw [eh1, subtreeIds_heightWrite]; exact hjl
      have e2 : ∀ x, ((writeNode (avl_set_height f h1 l) i fun n =>
          { n with height := ((avl_set_height f h1 l) l).height + 1 }) x).right
          = (h x).right := by
        intro x
        rw [heightWrite_right, (avl_set_height_fields f h1 l x).2.2.1,
          eh1, heightWrite_right]
      set h2 := writeNode (avl_set_height f h1 l) i
        (fun n => { n with height := ((avl_set_height f h1 l) l).height + 1 })
        with eh2
      have hv2 : (h2 i).right = (h i).right := e2 i
      rw [hv2]
      have h2j : h2 j = h j := by
        rw [eh2, writeNode_other _ _ _ _ hji, ih h1 l j hjl1,
          eh1, writeNode_other _ _ _ _ hji]
      cases hR : (h i).right with
      | none => exact h2j
      | some r =>
        rw [hR] at hjr
        have hjr2 : j ∉ subtreeIds f h2 (some r) := by
          rw [eh2, subtreeIds_heightWrite, subtreeIds_set_height,
            eh1, subtreeIds_heightWrite]
          exact hjr
        dsimp only
        split
        · rw [writeNode_other _ _ _ _ hji, ih h2 r j hjr2, h2j]
        · rw [ih h2 r j hjr2, h2j]

theorem avl_set_height_leaf (fuel : Nat) :
    ∀ (h : Heap) (i j : Nat),
      j ∈ subtreeIds fuel h (some i) →
      (h j).left = none → (h j).right = none →
      ((avl_set_height fuel h i) j).height = 1 := by
  induction fuel with
  | zero => intro h i j hj _ _; simp [subtreeIds] at hj
  | succ f ih =>
    intro h i j hj hjl hjr
    simp only [subtreeIds, List.mem_cons, List.mem_append] at hj
    simp only [avl_set_height, writeNode_same]
    cases hL : (h i).left with
    | none =>
      simp only [writeNode_same]
      cases hR : (h i).right with
      | none =>
        have hji : j = i := by
          rcases hj with hj | hj | hj
          · exact hj
          · rw [hL] at hj; simp [subtreeIds] at hj
          · rw [hR] at hj; simp [subtreeIds] at hj
        subst hji
        simp [writeNode]
      | some r =>
        have hji : j ≠ i := by
          intro hh; subst hh; rw [hjr] at hR; exact Option.noConfusion hR
        have hjmem : j ∈ subtreeIds f h (some r) := by
          rcases hj with hj | hj | hj
          · exact absurd hj hji
          · rw [hL] at hj; simp [subtreeIds] at hj
          · rw [hR] at hj; exact hj
        set h1 := writeNode h i (fun n => { n with height := 1 }) with eh1
        have hm1 : j ∈ subtreeIds f h1 (some r) := by
          rw [eh1, subtreeIds_heightWrite]; exact hjmem
        have hl1 : (h1 j).left = none := by rw [eh1, heightWrite_left]; exact hjl
        have hr1 : (h1 j).right = none := by
          rw [eh1, heightWrite_right]; exact hjr
        dsimp only
        split
        · rw [writeNode_other _ _ _ _ hji]
          exact ih h1 r j hm1 hl1 hr1
        · exact ih h1 r j hm1 hl1 hr1
    | some l =>
      have hji : j ≠ i := by
        intro hh; subst hh; rw [hjl] at hL; exact Option.noConfusion hL
      set h1 := writeNode h i (fun n => { n with height := 1 }) with eh1
      have hl1 : (h1 j).left = none := by rw [eh1, heightWrite_left]; exact hjl
      have hr1 : (h1 j).right = none := by
        rw [eh1, heightWrite_right]; exact hjr
      have e2 : ∀ x, ((writeNode (avl_set_height f h1 l) i fun n =>
          { n with height := ((avl_set_height f h1 l) l).height + 1 }) x).right
          = (h x).right := by
        intro x
        rw [heightWrite_right, (avl_set_height_fields f h1 l x).2.2.1,
          eh1, heightWrite_right]
      set h2 := writeNode (avl_set_height f h1 l) i
        (fun n => { n with height := ((avl_set_height f h1 l) l).height + 1 })
        with eh2
      have hv2 : (h2 i).right = (h i).right := e2 i
      rw [hv2]
      have hl2 : (h2 j).left = none := by
        rw [eh2, heightWrite_left, (avl_set_height_fields f h1 l j).2.1,
          eh1, heightWrite_left]
        exact hjl
      have hr2 : (h2 j).right = none := by rw [eh2]; rw [e2 j]; exact hjr
      have hsub2 : ∀ (o : Option Nat),
          subtreeIds f h2 o = subtreeIds f h o := by
        intro o
        rw [eh2, subtreeIds_heightWrite, subtreeIds_set_height,
          eh1, subtreeIds_heightWrite]
      have h2leaf : j ∈ subtreeIds f h (some l) → (h2 j).height = 1 := by
        intro hmem
        have hm1 : j ∈ subtreeIds f h1 (some l) := by
          rw [eh1, subtreeIds_heightWrite]; exact hmem
        rw [eh2, writeNode_other _ _ _ _ hji]
        exact ih h1 l j hm1 hl1 hr1
      cases hR : (h i).right with
      | none =>
        have hjmem : j ∈ subtreeIds f h (some l) := by
          rcases hj with hj | hj | hj
          · exact absurd hj hji
          · rw [hL] at hj; exact hj
          · rw [hR] at hj; simp [subtreeIds] at hj
        exact h2leaf hjmem
      | some r =>
        dsimp only
        have goal2 : (avl_set_height f h2 r j).height = 1 := by
          rcases hj with hj | hj | hj
          · exact absurd hj hji
          · rw [hL] at hj
            by_cases hmem2 : j ∈ subtreeIds f h2 (some r)
            · exact ih h2 r j hmem2 hl2 hr2
            · rw [avl_set_height_untouched f h2 r j hmem2]
              exact h2leaf hj
          · rw [hR] at hj
            have hm2 : j ∈ subtreeIds f h2 (some r) := by
              rw [hsub2]; exact hj
            exact ih h2 r j hm2 hl2 hr2
        split
        · rw [writeNode_other _ _ _ _ hji]
          exact goal2
        · exact goal2

theorem followsTo_mem_subtreeIds :
    ∀ (p : List Bool) (F : Nat) (h : Heap) (r j : Nat),
      followsTo p h r j → p.length < F → j ∈ subtreeIds F h (some r) := by
  intro p
  induction p with
  | nil =>
    intro F h r j hf hlen
    cases F with
    | zero => omega
    | succ F' =>
      cases hf
      simp [subtreeIds]
  | cons d p ihp =>
    intro F h r j hf hlen
    obtain ⟨c, hc, hrest⟩ := hf
    cases F with
    | zero => omega
    | succ F' =>
      have hmem := ihp F' h c j hrest (by simpa using hlen)
      simp only [subtreeIds, List.mem_cons, List.mem_append]
      cases d with
      | true =>
        simp only [if_pos] at hc
        right; left
        rw [hc]
        exact hmem
      | false =>
        simp only [Bool.false_eq_true, if_false] at hc
        right; right
        rw [hc]
        exact hmem

theorem pathIds_writeNode (g : AvlNode → AvlNode) (q : Nat) :
    ∀ (p : List Bool) (h : Heap) (r j : Nat),
      q ∉ pathIds p h r → followsTo p h r j →
      followsTo p (writeNode h q g) r j ∧
      pathIds p (writeNode h q g) r = pathIds p h r := by
  intro p
  induction p with
  | nil => intro h r j hq hf; exact ⟨hf, rfl⟩
  | cons d p ihp =>
    intro h r j hq hf
    obtain ⟨c, hc, hrest⟩ := hf
    have hrmem : r ∈ pathIds (d :: p) h r := by
      simp only [pathIds, hc]
      exact List.mem_cons_self _ _
    have hrq : r ≠ q := fun hh => hq (hh ▸ hrmem)
    have hwr : writeNode h q g r = h r := writeNode_other _ _ _ _ hrq
    have hcw : (if d then ((writeNode h q g) r).left
        else ((writeNode h q g) r).right) = some c := by
      rw [hwr]; exact hc
    have hq' : q ∉ pathIds p h c := by
      intro hmem
      apply hq
      simp only [pathIds, hc]
      exact List.mem_cons_of_mem _ hmem
    obtain ⟨hf', hpe⟩ := ihp h c j hq' hrest
    refine ⟨⟨c, hcw, hf'⟩, ?_⟩
    simp only [pathIds, hcw, hc]
    rw [hpe]

theorem avlAddAux_spec :
    ∀ (fuel : Nat) (h : Heap) (root par : Option Nat) (node : Nat)
      (p' : Option Nat),
      addDescent fuel h root par (h node).key = some p' →
      node ∉ subtreeIds fuel h root →
      (subtreeIds fuel h root).Nodup →
      (h node).left = none → (h node).right = none →
      ((avlAddAux fuel h root par node).1 node).parent = p' ∧
      ((avlAddAux fuel h root par node).1 node).left = none ∧
      ((avlAddAux fuel h root par node).1 node).right = none ∧
      ((avlAddAux fuel h root par node).1 node).key = (h node).key ∧
      ((avlAddAux fuel h root par node).1 node).height = (h node).height ∧
      (∀ j, j ≠ node → j ∉ subtreeIds fuel h root →
        (avlAddAux fuel h root par node).1 j = h j) ∧
      (∃ p : List Bool,
        followsTo p (avlAddAux fuel h root par node).1
          (avlAddAux fuel h root par node).2 node ∧
        p.length < fuel ∧
        ∀ x ∈ pathIds p (avlAddAux fuel h root par node).1
          (avlAddAux fuel h root par node).2,
          x = node ∨ x ∈ subtreeIds fuel h root) := by
  intro fuel
  induction fuel with
  | zero =>
    intro h root par node p' hdesc
    simp [addDescent] at hdesc
  | succ f ih =>
    intro h root par node p' hdesc hnotin hnodup hleft hright
    cases root with
    | none =>
      simp only [addDescent, Option.some.injEq] at hdesc
      subst hdesc
      simp only [avlAddAux]
      refine ⟨by simp [writeNode], ?_, ?_, ?_, ?_, ?_, ?_⟩
      · simp [writeNode, hleft]
      · simp [writeNode, hright]
      · simp [writeNode]
      · simp [writeNode]
      · intro j hj _
        rw [writeNode_other _ _ _ _ hj]
      · refine ⟨[], rfl, by simp, ?_⟩
        intro x hx
        simp [pathIds] at hx
        exact Or.inl hx
    | some rt =>
      have hne : node ≠ rt := by
        intro hh
        apply hnotin
        subst hh
        simp [subtreeIds]
      have hmemdec : node ∉ subtreeIds f h (h rt).left ∧
          node ∉ subtreeIds f h (h rt).right := by
        constructor <;> intro hmem <;> apply hnotin <;>
          simp only [subtreeIds, List.mem_cons, List.mem_append]
        · exact Or.inr (Or.inl hmem)
        · exact Or.inr (Or.inr hmem)
      obtain ⟨hninl, hninr⟩ := hmemdec
      have hnodup' := hnodup
      simp only [subtreeIds, List.nodup_cons, List.mem_append] at hnodup'
      obtain ⟨hrtnotin, hnodupAB⟩ := hnodup'
      have hrtA : rt ∉ subtreeIds f h (h rt).left := fun hmem =>
        hrtnotin (Or.inl hmem)
      have hrtB : rt ∉ subtreeIds f h (h rt).right := fun hmem =>
        hrtnotin (Or.inr hmem)
      have hnodupA := List.Nodup.of_append_left hnodupAB
      have hnodupB := List.Nodup.of_append_right hnodupAB
      by_cases hklt : (h node).key < (h rt).key
      · -- descent goes left
        have hcmplt : avl_cmp (h node).key (h rt).key < 0 :=
          (avl_cmp_neg _ _).mpr hklt
        have hdesc' : addDescent f h (h rt).left (some rt) (h node).key
            = some p' := by
          simpa [addDescent, hklt] using hdesc
        obtain ⟨c1, c2, c3, c4, c5, c6, c7⟩ :=
          ih h (h rt).left (some rt) node p' hdesc' hninl hnodupA hleft hright
        set s := avlAddAux f h (h rt).left (some rt) node with hs
        have hstep : avlAddAux (f + 1) h (some rt) par node =
            (writeNode s.1 rt fun n => { n with left := some s.2 }, rt) := by
          simp [avlAddAux, hcmplt, hs]
        rw [hstep]
        dsimp only
        obtain ⟨p, hp1, hp2, hp3⟩ := c7
        have hrtpath : rt ∉ pathIds p s.1 s.2 := by
          intro hmem
          rcases hp3 rt hmem with hh | hh
          · exact hne hh.symm
          · exact hrtA hh
        obtain ⟨hf', hpe⟩ := pathIds_writeNode
          (fun n => { n with left := some s.2 }) rt p s.1 s.2 node
          hrtpath hp1
        refine ⟨?_, ?_, ?_, ?_, ?_, ?_, ?_⟩
        · rw [writeNode_other _ _ _ _ hne]; exact c1
        · rw [writeNode_other _ _ _ _ hne]; exact c2
        · rw [writeNode_other _ _ _ _ hne]; exact c3
        · rw [writeNode_other _ _ _ _ hne]; exact c4
        · rw [writeNode_other _ _ _ _ hne]; exact c5
        · intro j hj hj2
          have hjrt : j ≠ rt := by
            intro hh
            apply hj2
            subst hh
            simp [subtreeIds]
          have hjl : j ∉ subtreeIds f h (h rt).left := by
            intro hmem
            apply hj2
            simp only [subtreeIds, List.mem_cons, List.mem_append]
            exact Or.inr (Or.inl hmem)
          rw [writeNode_other _ _ _ _ hjrt]
          exact c6 j hj hjl
        · refine ⟨true :: p, ?_, by simp only [List.length_cons]; omega, ?_⟩
          · refine ⟨s.2, ?_, hf'⟩
            simp [writeNode]
          · intro x hx
            have hsc : ((writeNode s.1 rt fun n =>
                { n with left := some s.2 }) rt).left = some s.2 := by
              simp [writeNode]
            simp only [pathIds, if_pos, hsc] at hx
            rcases List.mem_cons.mp hx with hh | hh
            · subst hh
              right
              simp [subtreeIds]
            · rw [hpe] at hh
              rcases hp3 x hh with h3 | h3
              · exact Or.inl h3
              · right
                simp only [subtreeIds, List.mem_cons, List.mem_append]
                exact Or.inr (Or.inl h3)
      · by_cases hkgt : (h rt).key < (h node).key
        · -- descent goes right; the result id is the recursive result
          have hcmpgt : avl_cmp (h node).key (h rt).key > 0 :=
            (avl_cmp_pos _ _).mpr hkgt
          have hcmpnlt : ¬ avl_cmp (h node).key (h rt).key < 0 := by omega
          have hdesc' : addDescent f h (h rt).right (some rt) (h node).key
              = some p' := by
            simpa [addDescent, hklt, hkgt] using hdesc
          obtain ⟨c1, c2, c3, c4, c5, c6, c7⟩ :=
            ih h (h rt).right (some rt) node p' hdesc' hninr hnodupB
              hleft hright
          set s := avlAddAux f h (h rt).right (some rt) node with hs
          have hstep : avlAddAux (f + 1) h (some rt) par node =
              (writeNode s.1 rt fun n => { n with right := some s.2 }, s.2)
              := by
            simp [avlAddAux, hcmpgt, hcmpnlt, hs]
          rw [hstep]
          dsimp only
          obtain ⟨p, hp1, hp2, hp3⟩ := c7
          have hrtpath : rt ∉ pathIds p s.1 s.2 := by
            intro hmem
            rcases hp3 rt hmem with hh | hh
            · exact hne hh.symm
            · exact hrtB hh
          obtain ⟨hf', hpe⟩ := pathIds_writeNode
            (fun n => { n with right := some s.2 }) rt p s.1 s.2 node
            hrtpath hp1
          refine ⟨?_, ?_, ?_, ?_, ?_, ?_, ?_⟩
          · rw [writeNode_other _ _ _ _ hne]; exact c1
          · rw [writeNode_other _ _ _ _ hne]; exact c2
          · rw [writeNode_other _ _ _ _ hne]; exact c3
          · rw [writeNode_other _ _ _ _ hne]; exact c4
          · rw [writeNode_other _ _ _ _ hne]; exact c5
          · intro j hj hj2
            have hjrt : j ≠ rt := by
              intro hh
              apply hj2
              subst hh
              simp [subtreeIds]
            have hjr : j ∉ subtreeIds f h (h rt).right := by
              intro hmem
              apply hj2
              simp only [subtreeIds, List.mem_cons, List.mem_append]
              exact Or.inr (Or.inr hmem)
            rw [writeNode_other _ _ _ _ hjrt]
            exact c6 j hj hjr
          · refine ⟨p, hf', by omega, ?_⟩
            intro x hx
            rw [hpe] at hx
            rcases hp3 x hx with h3 | h3
            · exact Or.inl h3
            · right
              simp only [subtreeIds, List.mem_cons, List.mem_append]
              exact Or.inr (Or.inr h3)
        · -- equal keys: the descent reports a duplicate, contradiction
          have hkeq : ¬ (h node).key < (h rt).key ∧
              ¬ (h rt).key < (h node).key := ⟨hklt, hkgt⟩
          simp [addDescent, hkeq.1, hkeq.2] at hdesc

/-- C8 (amended).  For every successful (non-duplicate) `Add` on a
well-formed tree, the *linking phase* of `avl_add` — the descent plus the
whole-tree height recomputation, i.e. the state just before the
rebalancing walk — leaves the inserted Detached node with its parent set
to the leaf parent found by the descent (`none` for an empty tree), its
left and right children still absent, and its height computed as 1.  (The
subsequent rebalancing walk may rotate and change these fields, which is
what the counterexample exhibits.) -/
theorem C8_amended (fuel : Nat) (t : AvlTree) (h : Heap) (node : Nat)
    (par : Option Nat)
    (hdesc : addDescent fuel h t.root none (h node).key = some par)
    (hnotin : node ∉ subtreeIds fuel h t.root)
    (hnodup : (subtreeIds fuel h t.root).Nodup)
    (hleft : (h node).left = none) (hright : (h node).right = none) :
    ((avl_set_height fuel (avlAddAux fuel h t.root none node).1
        (avlAddAux fuel h t.root none node).2) node).parent = par ∧
    ((avl_set_height fuel (avlAddAux fuel h t.root none node).1
        (avlAddAux fuel h t.root none node).2) node).left = none ∧
    ((avl_set_height fuel (avlAddAux fuel h t.root none node).1
        (avlAddAux fuel h t.root none node).2) node).right = none ∧
    ((avl_set_height fuel (avlAddAux fuel h t.root none node).1
        (avlAddAux fuel h t.root none node).2) node).key = (h node).key ∧
    ((avl_set_height fuel (avlAddAux fuel h t.root none node).1
        (avlAddAux fuel h t.root none node).2) node).height = 1 := by
  obtain ⟨c1, c2, c3, c4, c5, c6, c7⟩ :=
    avlAddAux_spec fuel h t.root none node par hdesc hnotin hnodup
      hleft hright
  obtain ⟨p, hp1, hp2, hp3⟩ := c7
  set s := avlAddAux fuel h t.root none node with hs
  have hFf := avl_set_height_fields fuel s.1 s.2 node
  refine ⟨?_, ?_, ?_, ?_, ?_⟩
  · rw [hFf.1]; exact c1
  · rw [hFf.2.1]; exact c2
  · rw [hFf.2.2.1]; exact c3
  · rw [hFf.2.2.2]; exact c4
  · have hmem : node ∈ subtreeIds fuel s.1 (some s.2) :=
      followsTo_mem_subtreeIds p fuel s.1 s.2 node hp1 hp2
    exact avl_set_height_leaf fuel s.1 s.2 node hmem c2 c3

/-- C8 witness: adding the Detached node id 3 (key 31) to the well-formed
tree `{30 (root, id 1), 36 (id 2)}`, the linking phase sets the node's
parent to the leaf parent id 2 found by the descent, keeps its children
absent, and computes its height as 1. -/
theorem C8_amended_witness :
    ((avl_set_height 30 (avlAddAux 30 heapIns (AvlTree.root ⟨some 1⟩)
        none 3).1 (avlAddAux 30 heapIns (AvlTree.root ⟨some 1⟩) none 3).2)
        3).parent = some 2 ∧
    ((avl_set_height 30 (avlAddAux 30 heapIns (AvlTree.root ⟨some 1⟩)
        none 3).1 (avlAddAux 30 heapIns (AvlTree.root ⟨some 1⟩) none 3).2)
        3).height = 1 := by
  have hc := C8_amended 30 ⟨some 1⟩ heapIns 3 (some 2) (by decide)
    (by decide) (by decide) (by decide) (by decide)
  exact ⟨hc.1, hc.2.2.2.2⟩
